import Mathlib

/-!
Verification development for the Gajni Memory single-page application
(`src/unnamed/part_000`, with `src/src/App.jsx` an earlier variant of the
same component).  The application state (the React `useState` hooks of
`App`) and its event handlers are embedded shallowly: machine-level
`Date.now()` readings and `toLocaleString()` renderings are external
inputs, browser side effects (alerts, console logging, device calls)
are reified as an `Effect` list, and the `localStorage` slot under the
fixed key `gajni-memories` is an `Option String`.
-/

/-- Memory record as created by `handleAddMemory`:
`{ id: Date.now(), text: newMemory, timestamp: new Date().toLocaleString() }`.
`id` is the millisecond clock reading (a natural number), `text` and
`timestamp` are strings. -/
structure Memory where
  id : Nat
  text : String
  timestamp : String
deriving Repr, DecidableEq

/-- Voice descriptor from `window.speechSynthesis.getVoices()`: only the
`name` and `lang` fields are consumed by the component. -/
structure Voice where
  name : String
  lang : String
deriving Repr, DecidableEq

/-- Component state: one field per `useState` hook of `App`
(`memories`, `newMemory`, `searchTerm`, `isListening`, `language`,
`voices`, `audioLevel`).  `audioLevel` is a simulated visual level
driven by an interval timer; its numeric value is environment-supplied,
so it is modelled as a natural number. -/
structure AppState where
  memories : List Memory
  newMemory : String
  searchTerm : String
  isListening : Bool
  language : String
  voices : List Voice
  audioLevel : Nat
deriving Repr, DecidableEq

/-- Initial state of the hooks: `[]`, `''`, `''`, `false`, `'en-US'`,
`[]`, `0`. -/
def initialState : AppState :=
  { memories := []
    newMemory := ""
    searchTerm := ""
    isListening := false
    language := "en-US"
    voices := []
    audioLevel := 0 }

/-- Observable side effects of the handlers: `alert`, `console.error`,
`console.warn`, and the calls into the recognition / synthesis devices. -/
inductive Effect where
  | alert : String → Effect
  | logError : String → Effect
  | logWarn : String → Effect
  | setRecogLang : String → Effect
  | recogStart : Effect
  | recogStop : Effect
  | synthCancel : Effect
  | synthSpeak : String → Option String → Effect
deriving Repr, DecidableEq

/-- Effects that touch one of the two browser devices (the recognition
instance or `window.speechSynthesis`). -/
def Effect.isDeviceCall : Effect → Bool
  | .setRecogLang _ => true
  | .recogStart => true
  | .recogStop => true
  | .synthCancel => true
  | .synthSpeak _ _ => true
  | _ => false

/-- Model of `String.prototype.trim`: drops leading and trailing
whitespace.  Restricted to the ASCII whitespace class
(`Char.isWhitespace`), which covers every input considered here. -/
def jsTrim (s : String) : String :=
  ⟨((s.data.dropWhile Char.isWhitespace).reverse.dropWhile Char.isWhitespace).reverse⟩

/-- Model of `String.prototype.toLowerCase`: lowers each character.
`Char.toLower` lowers the basic latin letters, a restriction of the
JavaScript `toLowerCase` that agrees on every input considered here. -/
def jsToLower (s : String) : String :=
  ⟨s.data.map Char.toLower⟩

/-- Model of `s.startsWith(pre)` on JavaScript strings. -/
def jsStartsWith (s pre : String) : Bool :=
  pre.data.isPrefixOf s.data

/-- Embedding of `handleAddMemory` (part_000 lines 109-122).  The
validation uses `newMemory.trim() === ''`.  `now` is the
`Date.now()` reading and `ts` the `toLocaleString()` rendering at the
moment of submission. -/
def handleAddMemory (st : AppState) (now : Nat) (ts : String) :
    AppState × List Effect :=
  if jsTrim st.newMemory = "" then
    (st, [.alert "Please enter a memory!"])
  else
    ({ st with
        memories := { id := now, text := st.newMemory, timestamp := ts } :: st.memories
        newMemory := "" },
     [])

/-- Embedding of `handleDeleteMemory` (part_000 lines 124-126):
`memories.filter(memory => memory.id !== idToDelete)`. -/
def handleDeleteMemory (st : AppState) (idToDelete : Nat) : AppState :=
  { st with memories := st.memories.filter (fun memory => memory.id != idToDelete) }

/-- Embedding of `handleListen` (part_000 lines 73-86).  `recogAvail`
models whether the `useMemo` block produced a recognition instance
(`window.SpeechRecognition || window.webkitSpeechRecognition`
was present). -/
def handleListen (recogAvail : Bool) (st : AppState) : AppState × List Effect :=
  if !recogAvail then
    (st, [.alert "Sorry, your browser does not support voice recognition."])
  else if st.isListening then
    ({ st with isListening := false }, [.setRecogLang st.language, .recogStop])
  else
    ({ st with isListening := true }, [.setRecogLang st.language, .recogStart])

/-- Embedding of `handleSpeak` (part_000 lines 128-145).  `synthAvail`
models `'speechSynthesis' in window`.  A `synthSpeak` with voice `none`
is an utterance without an explicit voice, i.e. the platform default. -/
def handleSpeak (synthAvail : Bool) (st : AppState) (textToSpeak : String) :
    List Effect :=
  if synthAvail then
    match st.voices.find? (fun voice => jsStartsWith voice.lang st.language) with
    | some v => [.synthCancel, .synthSpeak textToSpeak (some v.name)]
    | none =>
        [.synthCancel,
         .logWarn ("No voice found for language: " ++ st.language ++ ". Using default."),
         .synthSpeak textToSpeak none]
  else
    [.alert "Sorry, your browser does not support text-to-speech."]

/-- Boolean model of `haystack.includes(needle)` on JavaScript strings:
`needle` occurs contiguously in `haystack`.  Uses the core
`List.isPrefixOf` at each suffix. -/
def jsIncludes (haystack needle : List Char) : Bool :=
  if needle.isPrefixOf haystack then true
  else
    match haystack with
    | [] => false
    | _ :: t => jsIncludes t needle

/-- Embedding of the derived list (part_000 lines 147-149):
`memories.filter(memory => memory.text.toLowerCase().includes(searchTerm.toLowerCase()))`. -/
def filteredMemories (memories : List Memory) (searchTerm : String) : List Memory :=
  memories.filter
    (fun memory => jsIncludes (jsToLower memory.text).data (jsToLower searchTerm).data)

/-- Empty-state message of the list rendering (part_000 lines 239-247). -/
inductive EmptyNotice where
  | noMemoriesYet : EmptyNotice
  | noResultsFor : String → EmptyNotice
deriving Repr, DecidableEq

/-- Embedding of the empty-state branch of the render: when
`filteredMemories.length > 0` no message is shown; otherwise the
`searchTerm ? noResults : emptyState` conditional picks the message
(a JavaScript string is truthy exactly when it is non-empty). -/
def emptyNotice (memories : List Memory) (searchTerm : String) : Option EmptyNotice :=
  if (filteredMemories memories searchTerm).length > 0 then none
  else if searchTerm ≠ "" then some (.noResultsFor searchTerm)
  else some .noMemoriesYet

/-- UI and device events the component reacts to, each carrying the
environment data its handler reads. -/
inductive Event where
  | setDraft : String → Event
  | setSearch : String → Event
  | selectLanguage : String → Event
  | submitAdd : Nat → String → Event
  | clickDelete : Nat → Event
  | clickSpeak : String → Event
  | clickListen : Event
  | recogResult : String → Event
  | recogError : String → Event
  | recogEnd : Event
  | voicesChanged : List Voice → Event
  | audioTick : Nat → Event
deriving Repr, DecidableEq

/-- Events fired by the recognition device (`onresult`, `onerror`,
`onend`); they cannot occur when no recognition instance exists. -/
def Event.isRecognitionEvent : Event → Bool
  | .recogResult _ => true
  | .recogError _ => true
  | .recogEnd => true
  | _ => false

/-- Single step of the component: dispatches an event to its handler
(part_000: the `onChange`/`onSubmit`/`onClick` props and the
`onresult`/`onerror`/`onend`/`onvoiceschanged` callbacks plus the
audio-level interval). -/
def step (recogAvail synthAvail : Bool) (st : AppState) (e : Event) :
    AppState × List Effect :=
  match e with
  | .setDraft s => ({ st with newMemory := s }, [])
  | .setSearch s => ({ st with searchTerm := s }, [])
  | .selectLanguage s => ({ st with language := s }, [])
  | .submitAdd now ts => handleAddMemory st now ts
  | .clickDelete i => (handleDeleteMemory st i, [])
  | .clickSpeak t => (st, handleSpeak synthAvail st t)
  | .clickListen => handleListen recogAvail st
  | .recogResult t => ({ st with newMemory := t, isListening := false }, [])
  | .recogError m =>
      ({ st with isListening := false }, [.logError ("Speech recognition error " ++ m)])
  | .recogEnd => ({ st with isListening := false }, [])
  | .voicesChanged vs => (if vs.length > 0 then { st with voices := vs } else st, [])
  | .audioTick l =>
      (if st.isListening then { st with audioLevel := l } else { st with audioLevel := 0 }, [])

/-- Runs a sequence of events from a state, discarding effects. -/
def runSteps (recogAvail synthAvail : Bool) (st : AppState) : List Event → AppState
  | [] => st
  | e :: es => runSteps recogAvail synthAvail (step recogAvail synthAvail st e).1 es

/-- One add interaction: the user puts `draft` into the input
(`setNewMemory` via `onChange`) and submits the form at clock reading
`now` with locale rendering `ts`. -/
def runAdds (st : AppState) : List (String × Nat × String) → AppState
  | [] => st
  | (draft, now, ts) :: rest =>
      runAdds (handleAddMemory { st with newMemory := draft } now ts).1 rest

/-!
Persistence layer.  The save effect (part_000 lines 101-107) writes
`JSON.stringify(memories)` under the key `gajni-memories`; the load
effect (lines 89-98) reads the key, skips a missing or empty value, and
otherwise installs `JSON.parse(savedMemories)` — whatever value that
is — as `memories`, logging and keeping the initial `[]` only when
`JSON.parse` throws.  `JSON.stringify` on the memory array and
`JSON.parse` are modelled character-exactly below, with these
documented restrictions of the platform functions: numeric literals
are the unsigned integers (the only numbers this application writes,
`Date.now()` readings), no leading/trailing whitespace is skipped, and
strings are sequences of Unicode scalar values (no lone surrogates).
-/

/-- Dynamic (untyped) JSON value, the codomain of `JSON.parse`. -/
inductive Json where
  | null : Json
  | bool : Bool → Json
  | num : Nat → Json
  | str : String → Json
  | arr : List Json → Json
  | obj : List (String × Json) → Json
deriving Repr

/-- Hexadecimal digit character (lowercase), as produced by
`JSON.stringify` in `\u00xx` escapes. -/
def hexDigit (n : Nat) : Char :=
  Char.ofNat (if n < 10 then 48 + n else 87 + n)

/-- Value of a hexadecimal digit character (accepting both cases, as
`JSON.parse` does). -/
def hexVal (c : Char) : Option Nat :=
  if 48 ≤ c.toNat ∧ c.toNat ≤ 57 then some (c.toNat - 48)
  else if 97 ≤ c.toNat ∧ c.toNat ≤ 102 then some (c.toNat - 87)
  else if 65 ≤ c.toNat ∧ c.toNat ≤ 70 then some (c.toNat - 55)
  else none

/-- Escape of one character inside a JSON string literal, exactly as
`JSON.stringify` emits it: `"` and `\` are backslash-escaped, the
control characters BS, TAB, LF, FF, CR get their two-character
shortcuts, the remaining control characters below U+0020 become
`\u00xx`, and everything else is emitted literally. -/
def escapeChar (c : Char) : List Char :=
  if c = '"' then ['\\', '"']
  else if c = '\\' then ['\\', '\\']
  else if c = '\x08' then ['\\', 'b']
  else if c = '\x09' then ['\\', 't']
  else if c = '\x0a' then ['\\', 'n']
  else if c = '\x0c' then ['\\', 'f']
  else if c = '\x0d' then ['\\', 'r']
  else if c.toNat < 32 then
    ['\\', 'u', '0', '0', hexDigit (c.toNat / 16), hexDigit (c.toNat % 16)]
  else [c]

/-- Escape of a character sequence inside a JSON string literal. -/
def escapeList : List Char → List Char
  | [] => []
  | c :: cs => escapeChar c ++ escapeList cs

/-- JSON string literal for a string, quotes included. -/
def printStr (s : String) : List Char :=
  '"' :: (escapeList s.data ++ ['"'])

/-- Decimal digits of a natural number (big-endian accumulator form). -/
def natDigitsCore (n : Nat) (acc : List Char) : List Char :=
  if n < 10 then Char.ofNat (48 + n % 10) :: acc
  else natDigitsCore (n / 10) (Char.ofNat (48 + n % 10) :: acc)
termination_by n
decreasing_by exact Nat.div_lt_self (by omega) (by omega)

/-- Decimal digit string of a natural number, as `JSON.stringify`
prints a (non-negative integral) number. -/
def natDigits (n : Nat) : List Char :=
  natDigitsCore n []

/-- Character output of `JSON.stringify` on one memory record: an
object literal with the fields in insertion order `id`, `text`,
`timestamp` and no whitespace. -/
def printMemory (m : Memory) : List Char :=
  ['\x7b', '"', 'i', 'd', '"', ':'] ++ natDigits m.id
    ++ [',', '"', 't', 'e', 'x', 't', '"', ':'] ++ printStr m.text
    ++ [',', '"', 't', 'i', 'm', 'e', 's', 't', 'a', 'm', 'p', '"', ':']
    ++ printStr m.timestamp
    ++ ['\x7d']

/-- Comma-separated bodies of the array elements. -/
def printMemoriesBody : List Memory → List Char
  | [] => []
  | [m] => printMemory m
  | m :: m2 :: rest => printMemory m ++ (',' :: printMemoriesBody (m2 :: rest))

/-- Model of `JSON.stringify(memories)`: the serialized array written
to local storage on every change. -/
def stringifyMemories (ms : List Memory) : String :=
  ⟨'[' :: (printMemoriesBody ms ++ [']'])⟩

/-- Typed view of one memory record as the dynamic value `JSON.parse`
returns for it. -/
def memoryToJson (m : Memory) : Json :=
  .obj [("id", .num m.id), ("text", .str m.text), ("timestamp", .str m.timestamp)]

/-- Typed view of the whole serialized collection. -/
def memoriesToJson (ms : List Memory) : Json :=
  .arr (ms.map memoryToJson)

/-- Body of a JSON string literal (after the opening quote): unescapes
until the closing quote, rejecting raw control characters as
`JSON.parse` does.  Returns the decoded characters and the rest of the
input. -/
def parseStringBody : List Char → Option (List Char × List Char)
  | [] => none
  | c :: rest =>
    if c = '"' then some ([], rest)
    else if c = '\\' then
      match rest with
      | [] => none
      | e :: rest2 =>
        if e = '"' then (parseStringBody rest2).map (fun p => ('"' :: p.1, p.2))
        else if e = '\\' then (parseStringBody rest2).map (fun p => ('\\' :: p.1, p.2))
        else if e = '/' then (parseStringBody rest2).map (fun p => ('/' :: p.1, p.2))
        else if e = 'b' then (parseStringBody rest2).map (fun p => ('\x08' :: p.1, p.2))
        else if e = 't' then (parseStringBody rest2).map (fun p => ('\x09' :: p.1, p.2))
        else if e = 'n' then (parseStringBody rest2).map (fun p => ('\x0a' :: p.1, p.2))
        else if e = 'f' then (parseStringBody rest2).map (fun p => ('\x0c' :: p.1, p.2))
        else if e = 'r' then (parseStringBody rest2).map (fun p => ('\x0d' :: p.1, p.2))
        else if e = 'u' then
          match rest2 with
          | h1 :: h2 :: h3 :: h4 :: rest3 =>
            match hexVal h1, hexVal h2, hexVal h3, hexVal h4 with
            | some a, some b, some c2, some d =>
              (parseStringBody rest3).map
                (fun p => (Char.ofNat (4096 * a + 256 * b + 16 * c2 + d) :: p.1, p.2))
            | _, _, _, _ => none
          | _ => none
        else none
    else if c.toNat < 32 then none
    else (parseStringBody rest).map (fun p => (c :: p.1, p.2))

/-- Accumulating decimal-number scanner: consumes a maximal digit run. -/
def parseNatCore : List Char → Nat → Nat × List Char
  | [], acc => (acc, [])
  | c :: rest, acc =>
    if c.isDigit then parseNatCore rest (acc * 10 + (c.toNat - 48))
    else (acc, c :: rest)

/-- Number literal: requires a leading digit, then scans the run. -/
def parseNat : List Char → Option (Nat × List Char)
  | [] => none
  | c :: rest =>
    if c.isDigit then some (parseNatCore (c :: rest) 0)
    else none

/-- Tests whether the input starts with a decimal digit (used to state
where a number scan stops). -/
def headIsDigit : List Char → Bool
  | [] => false
  | c :: _ => c.isDigit

/-- Arm of the value parser for the literal `null`. -/
def litNull : List Char → Option (Json × List Char)
  | 'u' :: 'l' :: 'l' :: r => some (.null, r)
  | _ => none

/-- Arm of the value parser for the literal `true`. -/
def litTrue : List Char → Option (Json × List Char)
  | 'r' :: 'u' :: 'e' :: r => some (.bool true, r)
  | _ => none

/-- Arm of the value parser for the literal `false`. -/
def litFalse : List Char → Option (Json × List Char)
  | 'a' :: 'l' :: 's' :: 'e' :: r => some (.bool false, r)
  | _ => none

/-- Wraps a parsed string body as a value. -/
def strResult : Option (List Char × List Char) → Option (Json × List Char)
  | some (cs, r) => some (.str ⟨cs⟩, r)
  | none => none

/-- Wraps a scanned number as a value. -/
def numResult : Option (Nat × List Char) → Option (Json × List Char)
  | some (n, r) => some (.num n, r)
  | none => none

/-- After the rest of an array has been parsed (behind a re-attached
opening bracket): prepend the first element. -/
def arrCont2 (restArr : Option (Json × List Char)) (v : Json) :
    Option (Json × List Char) :=
  match restArr with
  | some (.arr vs, r3) => some (.arr (v :: vs), r3)
  | _ => none

/-- After the first array element: a comma continues with the rest of
the array re-parsed behind a re-attached opening bracket (via the
continuation `p`, the value parser at the remaining fuel), a closing
bracket finishes. -/
def arrCont (head : Option (Json × List Char))
    (p : List Char → Option (Json × List Char)) : Option (Json × List Char) :=
  match head with
  | some (v, ',' :: r2) => arrCont2 (p ('[' :: r2)) v
  | some (v, ']' :: r2) => some (.arr [v], r2)
  | _ => none

/-- Array branch: empty array, or first element then `arrCont`. -/
def arrBranch (rest : List Char)
    (p : List Char → Option (Json × List Char)) : Option (Json × List Char) :=
  match rest with
  | ']' :: r => some (.arr [], r)
  | _ => arrCont (p rest) p

/-- After the rest of an object has been parsed (behind a re-attached
opening brace): prepend the first field. -/
def objCont3 (restObj : Option (Json × List Char)) (k : String) (v : Json) :
    Option (Json × List Char) :=
  match restObj with
  | some (.obj fs, r3) => some (.obj ((k, v) :: fs), r3)
  | _ => none

/-- After an object key and its colon, with the field value parsed:
a comma continues with the rest of the object re-parsed behind a
re-attached opening brace, a closing brace finishes. -/
def objCont2 (fieldVal : Option (Json × List Char))
    (p : List Char → Option (Json × List Char)) (k : String) :
    Option (Json × List Char) :=
  match fieldVal with
  | some (v, ',' :: r2) => objCont3 (p ('\x7b' :: r2)) k v
  | some (v, '\x7d' :: r2) => some (.obj [(k, v)], r2)
  | _ => none

/-- After an object key: requires the colon, then hands the parsed
field value to `objCont2`. -/
def objCont (key : Option (List Char × List Char))
    (p : List Char → Option (Json × List Char)) : Option (Json × List Char) :=
  match key with
  | some (k, ':' :: rv) => objCont2 (p rv) p ⟨k⟩
  | _ => none

/-- Object branch: empty object, or a quoted key then `objCont`. -/
def objBranch (rest : List Char)
    (p : List Char → Option (Json × List Char)) : Option (Json × List Char) :=
  match rest with
  | '\x7d' :: r => some (.obj [], r)
  | '"' :: rk => objCont (parseStringBody rk) p
  | _ => none

/-- Recursive-descent JSON value parser, fuelled to make the recursion
structural (the fuel only bounds recursion depth; `parseJson` supplies
enough for any input it accepts). -/
def parseValue : Nat → List Char → Option (Json × List Char)
  | 0, _ => none
  | fuel + 1, input =>
    match input with
    | [] => none
    | c :: rest =>
      if c = 'n' then litNull rest
      else if c = 't' then litTrue rest
      else if c = 'f' then litFalse rest
      else if c = '"' then strResult (parseStringBody rest)
      else if c = '[' then arrBranch rest (parseValue fuel)
      else if c = '\x7b' then objBranch rest (parseValue fuel)
      else if c.isDigit then numResult (parseNat (c :: rest))
      else none

/-- Model of `JSON.parse`: the whole input must be one value; `none`
models a thrown `SyntaxError`. -/
def parseJson (s : String) : Option Json :=
  match parseValue (s.data.length + 1) s.data with
  | some (v, []) => some v
  | _ => none

/-- Model of the startup load effect (part_000 lines 89-98) at the
dynamic level: a missing or empty stored value is skipped silently
(`if (savedMemories)`), a parse exception is logged and leaves the
initial `[]`, and any successfully parsed value — of whatever shape —
is installed as `memories`.  The initial `[]` appears here as
`Json.arr []`, its dynamic view. -/
def loadDyn : Option String → Json × List Effect
  | none => (.arr [], [])
  | some s =>
    if s = "" then (.arr [], [])
    else
      match parseJson s with
      | some v => (v, [])
      | none => (.arr [], [.logError "Failed to load memories from local storage"])

/-- Field lookup on a dynamic object, as JavaScript property access on
the parsed value. -/
def jsGetField (fields : List (String × Json)) (k : String) : Option Json :=
  (fields.find? (fun f => f.1 == k)).map (fun f => f.2)

/-- Schema read-back of one record: succeeds exactly when the dynamic
value carries the `id`/`text`/`timestamp` fields of §3 with their
declared types. -/
def decodeMemoryJson : Json → Option Memory
  | .obj [("id", .num i), ("text", .str t), ("timestamp", .str ts)] =>
      some { id := i, text := t, timestamp := ts }
  | _ => none

/-- Schema read-back of a whole stored collection. -/
def decodeMemoriesJson : Json → Option (List Memory)
  | .arr l => l.mapM decodeMemoryJson
  | _ => none

/-- The render-time filter run on a dynamic `memories` value:
`memories.filter(m => m.text.toLowerCase().includes(...))`.  `none`
models the `TypeError` the browser throws when `memories` is not an
array or an element has no string `text` field. -/
def filterTextMatches (q : String) : List Json → Option (List Json)
  | [] => some []
  | v :: rest =>
    match v with
    | .obj fields =>
      match jsGetField fields "text" with
      | some (.str t) =>
        (filterTextMatches q rest).map
          (fun r => if jsIncludes (jsToLower t).data (jsToLower q).data then v :: r else r)
      | _ => none
    | _ => none

/-- Dynamic counterpart of `filteredMemories`; `none` models a fatal
render error. -/
def filteredMemoriesDyn (memories : Json) (searchTerm : String) :
    Option (List Json) :=
  match memories with
  | .arr l => filterTextMatches searchTerm l
  | _ => none

/-!
Theorems.  Shared helper lemmas come first; each claim then gets one
theorem (with witness or counterexample where required).
-/

/-- Specification-side predicate, from the spec's words in §8: the
filter string occurs in the text as a case-insensitive substring. -/
def specCaseInsensitiveSubstr (pat text : String) : Prop :=
  (jsToLower pat).data <:+: (jsToLower text).data

/-- Helper: `jsIncludes` decides contiguous-substring occurrence. -/
theorem jsIncludes_iff_substring (haystack needle : List Char) :
    jsIncludes haystack needle = true ↔ needle <:+: haystack := by
  induction haystack with
  | nil =>
    simp [jsIncludes]
  | cons c t ih =>
    rw [jsIncludes]
    by_cases hp : needle <+: (c :: t)
    · have hb : needle.isPrefixOf (c :: t) = true := List.isPrefixOf_iff_prefix.mpr hp
      simp [hb, hp.isInfix]
    · have hb : needle.isPrefixOf (c :: t) = false := by
        rw [Bool.eq_false_iff]
        intro hcon
        exact hp (List.isPrefixOf_iff_prefix.mp hcon)
      rw [hb]
      simp only [Bool.false_eq_true, if_false, ih, List.infix_cons_iff]
      constructor
      · exact Or.inr
      · rintro (h | h)
        · exact absurd h hp
        · exact h

/-- Claim C2: in every state, submitting the add form while the draft
text is empty or whitespace-only leaves the whole component state
unchanged and raises the validation alert. -/
theorem blankDraft_alert_noStateChange (st : AppState) (now : Nat) (ts : String)
    (h : jsTrim st.newMemory = "") :
    handleAddMemory st now ts = (st, [Effect.alert "Please enter a memory!"]) := by
  simp [handleAddMemory, h]

/-- Witness for C2: the initial state has an empty draft, and
submitting there changes nothing and alerts. -/
theorem blankDraft_alert_noStateChange_witness :
    handleAddMemory initialState 0 "t" =
      (initialState, [Effect.alert "Please enter a memory!"]) :=
  blankDraft_alert_noStateChange initialState 0 "t" (by decide)

/-- Claim C10: deleting an id that matches no record leaves the
collection (indeed the whole state) unchanged. -/
theorem delete_absent_id_noop (st : AppState) (i : Nat)
    (h : ∀ m ∈ st.memories, m.id ≠ i) :
    handleDeleteMemory st i = st := by
  unfold handleDeleteMemory
  have hf : st.memories.filter (fun memory => memory.id != i) = st.memories :=
    List.filter_eq_self.mpr (fun m hm => by
      simp only [bne_iff_ne, ne_eq, decide_eq_true_eq]
      exact h m hm)
  rw [hf]

/-- Witness for C10 at a concrete collection and absent id. -/
theorem delete_absent_id_noop_witness :
    handleDeleteMemory
      { initialState with memories := [{ id := 1, text := "a", timestamp := "t" }] } 2 =
      { initialState with memories := [{ id := 1, text := "a", timestamp := "t" }] } :=
  delete_absent_id_noop _ 2 (by decide)

/-- Claim C3: when ids are unique (the §3 collection invariant) and
`m` is present, deleting by `m.id` removes exactly that record:
the result is the two surrounding segments, in their original order. -/
theorem delete_present_id_removes_exactly_one (st : AppState) (m : Memory)
    (hnd : (st.memories.map Memory.id).Nodup) (hm : m ∈ st.memories) :
    ∃ l1 l2, st.memories = l1 ++ m :: l2 ∧
      (handleDeleteMemory st m.id).memories = l1 ++ l2 := by
  obtain ⟨l1, l2, heq⟩ := List.append_of_mem hm
  refine ⟨l1, l2, heq, ?_⟩
  unfold handleDeleteMemory
  simp only []
  rw [heq] at hnd ⊢
  rw [List.map_append, List.map_cons] at hnd
  rw [List.nodup_append] at hnd
  obtain ⟨h1, h2, hdisj⟩ := hnd
  rw [List.nodup_cons] at h2
  have hl1 : ∀ x ∈ l1, x.id ≠ m.id := by
    intro x hx hcon
    exact hdisj (List.mem_map_of_mem Memory.id hx) (hcon ▸ List.mem_cons_self _ _)
  have hl2 : ∀ x ∈ l2, x.id ≠ m.id := by
    intro x hx hcon
    exact h2.1 (hcon ▸ List.mem_map_of_mem Memory.id hx)
  rw [List.filter_append, List.filter_cons]
  simp only [bne_self_eq_false, Bool.false_eq_true, if_false]
  rw [List.filter_eq_self.mpr (fun x hx => by
        simp only [bne_iff_ne, ne_eq, decide_eq_true_eq]; exact hl1 x hx),
      List.filter_eq_self.mpr (fun x hx => by
        simp only [bne_iff_ne, ne_eq, decide_eq_true_eq]; exact hl2 x hx)]

/-- Witness for C3 at a concrete two-element collection. -/
theorem delete_present_id_removes_exactly_one_witness :
    ∃ l1 l2,
      ({ initialState with
          memories := [{ id := 1, text := "a", timestamp := "t" },
                       { id := 2, text := "b", timestamp := "u" }] } : AppState).memories
        = l1 ++ ({ id := 1, text := "a", timestamp := "t" } : Memory) :: l2 ∧
      (handleDeleteMemory
        { initialState with
            memories := [{ id := 1, text := "a", timestamp := "t" },
                         { id := 2, text := "b", timestamp := "u" }] } 1).memories
        = l1 ++ l2 :=
  delete_present_id_removes_exactly_one _ _ (by decide) (by decide)

/-- Helper for C7: with no recognition instance, no reachable event can
turn the listening flag on (the only handler that sets it is the
available branch of `handleListen`, and the device callbacks that would
also touch it cannot fire). -/
theorem step_preserves_idle (synthAvail : Bool) (st : AppState) (e : Event)
    (he : e.isRecognitionEvent = false) (h : st.isListening = false) :
    (step false synthAvail st e).1.isListening = false := by
  cases e <;>
    simp_all [step, handleAddMemory, handleDeleteMemory, handleListen,
      Event.isRecognitionEvent] <;>
    split <;> simp_all

/-- Helper for C7: the idle invariant along any recognition-free trace. -/
theorem runSteps_idle (synthAvail : Bool) (events : List Event) (st : AppState)
    (h : st.isListening = false)
    (he : ∀ e ∈ events, e.isRecognitionEvent = false) :
    (runSteps false synthAvail st events).isListening = false := by
  induction events generalizing st with
  | nil => exact h
  | cons e es ih =>
    rw [runSteps]
    exact ih _ (step_preserves_idle synthAvail st e (he e (List.mem_cons_self e es)) h)
      (fun x hx => he x (List.mem_cons_of_mem e hx))

/-- Claim C7: with the recognition capability absent, in any state
reachable from startup the listening flag is `false` (`Idle`), and
invoking the toggle leaves the whole state unchanged, raises exactly
the unsupported-browser alert, and performs no device call. -/
theorem recogAbsent_toggle_idle (synthAvail : Bool) (events : List Event)
    (he : ∀ e ∈ events, e.isRecognitionEvent = false) :
    (runSteps false synthAvail initialState events).isListening = false ∧
    handleListen false (runSteps false synthAvail initialState events) =
      (runSteps false synthAvail initialState events,
       [Effect.alert "Sorry, your browser does not support voice recognition."]) ∧
    ∀ eff ∈ (handleListen false (runSteps false synthAvail initialState events)).2,
      eff.isDeviceCall = false := by
  refine ⟨runSteps_idle synthAvail events initialState rfl he, by simp [handleListen], ?_⟩
  simp [handleListen, Effect.isDeviceCall]

/-- Witness for C7 at a concrete recognition-free trace. -/
theorem recogAbsent_toggle_idle_witness :
    (runSteps false true initialState
        [Event.setDraft "hi", Event.clickListen, Event.submitAdd 3 "t"]).isListening
      = false ∧
    handleListen false
        (runSteps false true initialState
          [Event.setDraft "hi", Event.clickListen, Event.submitAdd 3 "t"]) =
      (runSteps false true initialState
          [Event.setDraft "hi", Event.clickListen, Event.submitAdd 3 "t"],
       [Effect.alert "Sorry, your browser does not support voice recognition."]) ∧
    ∀ eff ∈ (handleListen false
        (runSteps false true initialState
          [Event.setDraft "hi", Event.clickListen, Event.submitAdd 3 "t"])).2,
      eff.isDeviceCall = false :=
  recogAbsent_toggle_idle true
    [Event.setDraft "hi", Event.clickListen, Event.submitAdd 3 "t"] (by decide)

/-- Counterexample for C9 as stated: with zero memories in total but a
non-empty filter, the render shows the "no results" message, not the
"no memories yet" one. -/
theorem emptyState_zeroTotal_cex :
    emptyNotice [] "x" = some (EmptyNotice.noResultsFor "x") ∧
    emptyNotice [] "x" ≠ some EmptyNotice.noMemoriesYet := by
  constructor
  · rfl
  · decide

/-- Claim C9 (amended): the "no memories yet" message is shown exactly
when the filter matches nothing and the filter is empty (in particular
when no memories exist and no filter is active); the "no results for
filter" message exactly when the filter is non-empty and matches
nothing; and the two are never shown simultaneously. -/
theorem emptyState_messages (ms : List Memory) (q : String) :
    (emptyNotice ms q = some EmptyNotice.noMemoriesYet ↔
      filteredMemories ms q = [] ∧ q = "") ∧
    (emptyNotice ms q = some (EmptyNotice.noResultsFor q) ↔
      filteredMemories ms q = [] ∧ q ≠ "") ∧
    (ms = [] ∧ q = "" → emptyNotice ms q = some EmptyNotice.noMemoriesYet) ∧
    ¬ (emptyNotice ms q = some EmptyNotice.noMemoriesYet ∧
       emptyNotice ms q = some (EmptyNotice.noResultsFor q)) := by
  unfold emptyNotice
  refine ⟨?_, ?_, ?_, ?_⟩
  · constructor
    · intro h
      by_cases h1 : (filteredMemories ms q).length > 0
      · simp [h1] at h
      · by_cases h2 : q = ""
        · exact ⟨List.length_eq_zero.mp (by omega), h2⟩
        · simp [h1, h2] at h
    · rintro ⟨h1, h2⟩
      subst h2
      simp [h1]
  · constructor
    · intro h
      by_cases h1 : (filteredMemories ms q).length > 0
      · simp [h1] at h
      · by_cases h2 : q = ""
        · simp [h1, h2] at h
        · exact ⟨List.length_eq_zero.mp (by omega), h2⟩
    · rintro ⟨h1, h2⟩
      simp [h1, h2]
  · rintro ⟨h1, h2⟩
    subst h1 h2
    rfl
  · rintro ⟨h1, h2⟩
    rw [h1] at h2
    simp at h2

/-- Claim C5: the displayed list keeps exactly the memories whose text
contains the filter as a case-insensitive substring; the empty filter
keeps everything; and concretely, "Buy Milk" is kept for the filters
"milk", "MILK" and "", and dropped for "almond". -/
theorem search_filter_spec :
    (∀ (ms : List Memory) (q : String) (m : Memory),
      m ∈ filteredMemories ms q ↔ m ∈ ms ∧ specCaseInsensitiveSubstr q m.text) ∧
    (∀ ms : List Memory, filteredMemories ms "" = ms) ∧
    (({ id := 1, text := "Buy Milk", timestamp := "t" } : Memory) ∈
        filteredMemories [{ id := 1, text := "Buy Milk", timestamp := "t" }] "milk" ∧
     ({ id := 1, text := "Buy Milk", timestamp := "t" } : Memory) ∈
        filteredMemories [{ id := 1, text := "Buy Milk", timestamp := "t" }] "MILK" ∧
     ({ id := 1, text := "Buy Milk", timestamp := "t" } : Memory) ∈
        filteredMemories [{ id := 1, text := "Buy Milk", timestamp := "t" }] "" ∧
     ({ id := 1, text := "Buy Milk", timestamp := "t" } : Memory) ∉
        filteredMemories [{ id := 1, text := "Buy Milk", timestamp := "t" }] "almond") := by
  refine ⟨?_, ?_, ?_, ?_, ?_, ?_⟩
  · intro ms q m
    rw [filteredMemories, List.mem_filter, jsIncludes_iff_substring]
    exact Iff.rfl
  · intro ms
    apply List.filter_eq_self.mpr
    intro m _
    rw [jsIncludes_iff_substring]
    exact List.nil_infix
  · decide
  · decide
  · decide
  · decide

/-- Claim C8, part one of the statement: playback with an available
synthesis capability and a first matching voice `v` (its locale tag
starts with the selected language, everything before it does not
match) cancels in-flight speech and speaks with exactly `v`, with no
warning.  Part two: with no matching voice it cancels, logs the
warning, and speaks with the platform default voice.  `handleSpeak` is
a total function, so neither path can throw. -/
theorem speak_voice_selection (st : AppState) (textToSpeak : String) :
    (∀ pre v post, st.voices = pre ++ v :: post →
      (∀ u ∈ pre, jsStartsWith u.lang st.language = false) →
      jsStartsWith v.lang st.language = true →
      handleSpeak true st textToSpeak =
        [Effect.synthCancel, Effect.synthSpeak textToSpeak (some v.name)]) ∧
    ((∀ v ∈ st.voices, jsStartsWith v.lang st.language = false) →
      handleSpeak true st textToSpeak =
        [Effect.synthCancel,
         Effect.logWarn ("No voice found for language: " ++ st.language ++ ". Using default."),
         Effect.synthSpeak textToSpeak none]) := by
  constructor
  · intro pre v post hsplit hpre hv
    have hfind : st.voices.find? (fun voice => jsStartsWith voice.lang st.language) = some v := by
      rw [hsplit, List.find?_append]
      have h1 : pre.find? (fun voice => jsStartsWith voice.lang st.language) = none :=
        List.find?_eq_none.mpr (fun u hu => by simp [hpre u hu])
      rw [h1, Option.none_or,
        List.find?_cons_of_pos (p := fun voice => jsStartsWith voice.lang st.language) post hv]
    simp [handleSpeak, hfind]
  · intro hnone
    have hfind : st.voices.find? (fun voice => jsStartsWith voice.lang st.language) = none :=
      List.find?_eq_none.mpr (fun u hu => by simp [hnone u hu])
    simp [handleSpeak, hfind]

/-- Witness for C8: a voice list with one non-matching and one matching
entry selects the matching one; a list with only the non-matching entry
falls back with the warning. -/
theorem speak_voice_selection_witness :
    handleSpeak true
        { initialState with
            voices := [{ name := "ur", lang := "ur-PK" }, { name := "us", lang := "en-US" }] }
        "hello" =
      [Effect.synthCancel, Effect.synthSpeak "hello" (some "us")] ∧
    handleSpeak true { initialState with voices := [{ name := "ur", lang := "ur-PK" }] }
        "hello" =
      [Effect.synthCancel,
       Effect.logWarn ("No voice found for language: " ++ "en-US" ++ ". Using default."),
       Effect.synthSpeak "hello" none] :=
  ⟨(speak_voice_selection _ "hello").1 [{ name := "ur", lang := "ur-PK" }]
      { name := "us", lang := "en-US" } [] rfl (by decide) (by decide),
   (speak_voice_selection _ "hello").2 (by decide)⟩

/-- Helper for C1: with non-blank drafts every submission prepends its
record, so the final collection is the insertion sequence reversed, on
top of whatever was there before. -/
theorem runAdds_memories (adds : List (String × Nat × String)) (st : AppState)
    (hblank : ∀ a ∈ adds, jsTrim a.1 ≠ "") :
    (runAdds st adds).memories =
      (adds.map (fun a => ({ id := a.2.1, text := a.1, timestamp := a.2.2 } : Memory))).reverse
        ++ st.memories := by
  induction adds generalizing st with
  | nil => simp [runAdds]
  | cons a rest ih =>
    obtain ⟨d, now, ts⟩ := a
    rw [runAdds]
    have hd : jsTrim d ≠ "" := hblank _ (List.mem_cons_self _ _)
    rw [ih _ (fun x hx => hblank x (List.mem_cons_of_mem _ hx))]
    simp [handleAddMemory, hd]

/-- Counterexample for C1 as stated: two adds with non-blank drafts
submitted at the same `Date.now()` reading (5 ms) produce two records
with the same id, so ids are not unique over every such sequence. -/
theorem addSequence_duplicate_id_cex :
    (jsTrim "a" ≠ "" ∧ jsTrim "b" ≠ "") ∧
    ¬ ((runAdds initialState [("a", 5, "t"), ("b", 5, "t")]).memories.map Memory.id).Nodup := by
  decide

/-- Claim C1 (amended): starting from an empty collection, a sequence
of adds with non-blank drafts yields exactly the insertion sequence
reversed (each new record prepended, newest first) — unconditionally;
and whenever the `Date.now()` readings of the adds are pairwise
distinct — e.g. strictly increasing, at most one submission per
millisecond — every id in the result is unique. -/
theorem addSequence_order_unique (st : AppState) (adds : List (String × Nat × String))
    (h0 : st.memories = [])
    (hblank : ∀ a ∈ adds, jsTrim a.1 ≠ "") :
    (runAdds st adds).memories =
      (adds.map (fun a => ({ id := a.2.1, text := a.1, timestamp := a.2.2 } : Memory))).reverse ∧
    ((adds.map (fun a => a.2.1)).Nodup →
      ((runAdds st adds).memories.map Memory.id).Nodup) := by
  have hmem := runAdds_memories adds st hblank
  rw [h0, List.append_nil] at hmem
  refine ⟨hmem, fun hclock => ?_⟩
  rw [hmem, List.map_reverse, List.map_map, List.nodup_reverse]
  exact hclock

/-- Witness for C1 (amended): a same-reading sequence still gets the
reversed-insertion order, and a distinct-reading sequence additionally
gets unique ids. -/
theorem addSequence_order_unique_witness :
    (runAdds initialState [("a", 5, "t"), ("b", 5, "u")]).memories =
      ([({ id := 5, text := "a", timestamp := "t" } : Memory),
        { id := 5, text := "b", timestamp := "u" }].reverse) ∧
    (runAdds initialState [("a", 5, "t"), ("b", 7, "u")]).memories =
      ([({ id := 5, text := "a", timestamp := "t" } : Memory),
        { id := 7, text := "b", timestamp := "u" }].reverse) ∧
    ((runAdds initialState [("a", 5, "t"), ("b", 7, "u")]).memories.map Memory.id).Nodup :=
  ⟨(addSequence_order_unique initialState [("a", 5, "t"), ("b", 5, "u")] rfl (by decide)).1,
   (addSequence_order_unique initialState [("a", 5, "t"), ("b", 7, "u")] rfl (by decide)).1,
   (addSequence_order_unique initialState [("a", 5, "t"), ("b", 7, "u")] rfl
      (by decide)).2 (by decide)⟩

/-- Helper: digit characters produced by the decimal printer. -/
theorem isDigit_ofNat_digit (r : Nat) (h : r < 10) :
    (Char.ofNat (48 + r)).isDigit = true := by
  interval_cases r <;> decide

/-- Helper: code point of a printed digit character. -/
theorem toNat_ofNat_digit (r : Nat) (h : r < 10) :
    (Char.ofNat (48 + r)).toNat = 48 + r := by
  interval_cases r <;> decide

/-- Helper: the accumulator form of the decimal printer appends. -/
theorem natDigitsCore_append (n : Nat) (acc : List Char) :
    natDigitsCore n acc = natDigits n ++ acc := by
  induction n using Nat.strong_induction_on generalizing acc with
  | _ n ih =>
    conv_lhs => rw [natDigitsCore]
    conv_rhs => rw [natDigits, natDigitsCore]
    by_cases h : n < 10
    · simp [h]
    · simp only [h, if_false]
      rw [ih (n / 10) (Nat.div_lt_self (by omega) (by omega)),
          ih (n / 10) (Nat.div_lt_self (by omega) (by omega))]
      simp

/-- Helper: a printed number is non-empty and starts with a digit. -/
theorem natDigits_cons (n : Nat) :
    ∃ c cs, natDigits n = c :: cs ∧ c.isDigit = true := by
  induction n using Nat.strong_induction_on with
  | _ n ih =>
    rw [natDigits, natDigitsCore]
    by_cases h : n < 10
    · simp only [h, if_true]
      exact ⟨_, [], rfl, isDigit_ofNat_digit _ (Nat.mod_lt _ (by omega))⟩
    · simp only [h, if_false]
      rw [natDigitsCore_append]
      obtain ⟨c, cs, hcc, hd⟩ := ih (n / 10) (Nat.div_lt_self (by omega) (by omega))
      exact ⟨c, cs ++ [Char.ofNat (48 + n % 10)], by rw [hcc]; simp, hd⟩

/-- Helper: the number scanner stops at a non-digit head. -/
theorem parseNatCore_stop (rest : List Char) (a : Nat)
    (h : headIsDigit rest = false) :
    parseNatCore rest a = (a, rest) := by
  cases rest with
  | nil => rfl
  | cons c t =>
    rw [headIsDigit] at h
    rw [parseNatCore]
    simp [h]

/-- Helper: scanning the printed digits of `n` after accumulator `a`
continues with `a` shifted past them and `n` added. -/
theorem parseNatCore_digits (n : Nat) (a : Nat) (rest : List Char) :
    parseNatCore (natDigits n ++ rest) a =
      parseNatCore rest (a * 10 ^ (natDigits n).length + n) := by
  induction n using Nat.strong_induction_on generalizing a rest with
  | _ n ih =>
    by_cases h : n < 10
    · have hdd : natDigits n = [Char.ofNat (48 + n % 10)] := by
        rw [natDigits, natDigitsCore]
        simp [h]
      rw [hdd]
      rw [List.cons_append, List.nil_append, parseNatCore]
      have hmod : n % 10 = n := Nat.mod_eq_of_lt h
      rw [isDigit_ofNat_digit _ (Nat.mod_lt _ (by omega)),
          toNat_ofNat_digit _ (Nat.mod_lt _ (by omega))]
      simp only [if_true]
      rw [hmod]
      norm_num
    · have hdd : natDigits n = natDigits (n / 10) ++ [Char.ofNat (48 + n % 10)] := by
        rw [natDigits, natDigitsCore]
        simp only [h, if_false]
        rw [natDigitsCore_append]
      rw [hdd, List.append_assoc, List.cons_append, List.nil_append]
      rw [ih (n / 10) (Nat.div_lt_self (by omega) (by omega))]
      rw [parseNatCore]
      rw [isDigit_ofNat_digit _ (Nat.mod_lt _ (by omega)),
          toNat_ofNat_digit _ (Nat.mod_lt _ (by omega))]
      simp only [if_true]
      congr 1
      · simp [List.length_append]
        ring_nf
        omega

/-- Helper: the number literal parser inverts the decimal printer. -/
theorem parseNat_digits (n : Nat) (rest : List Char)
    (h : headIsDigit rest = false) :
    parseNat (natDigits n ++ rest) = some (n, rest) := by
  obtain ⟨c, cs, hcc, hd⟩ := natDigits_cons n
  rw [hcc, List.cons_append, parseNat, hd]
  simp only [if_true]
  rw [← List.cons_append, ← hcc, parseNatCore_digits, parseNatCore_stop rest _ h]
  simp

/-- Helper: hexadecimal digit characters round-trip. -/
theorem hexVal_hexDigit (k : Nat) (h : k < 16) :
    hexVal (hexDigit k) = some k := by
  interval_cases k <;> decide

/-- Helper: the string-body parser inverts the `JSON.stringify` escape
of an arbitrary character sequence. -/
theorem parseStringBody_escape (s : List Char) (rest : List Char) :
    parseStringBody (escapeList s ++ '"' :: rest) = some (s, rest) := by
  induction s with
  | nil =>
    rw [escapeList, List.nil_append, parseStringBody.eq_def]
    dsimp only []
    simp
  | cons c cs ih =>
    rw [escapeList, List.append_assoc]
    by_cases h1 : c = '"'
    · subst h1
      rw [show escapeChar '"' = ['\\', '"'] from by decide]
      rw [List.cons_append, List.cons_append, List.nil_append]
      rw [parseStringBody.eq_def]
      dsimp only []
      simp +decide [ih]
    · by_cases h2 : c = '\\'
      · subst h2
        rw [show escapeChar '\\' = ['\\', '\\'] from by decide]
        rw [List.cons_append, List.cons_append, List.nil_append]
        rw [parseStringBody.eq_def]
        dsimp only []
        simp +decide [ih]
      · by_cases h3 : c = '\x08'
        · subst h3
          rw [show escapeChar '\x08' = ['\\', 'b'] from by decide]
          rw [List.cons_append, List.cons_append, List.nil_append]
          rw [parseStringBody.eq_def]
          dsimp only []
          simp +decide [ih]
        · by_cases h4 : c = '\x09'
          · subst h4
            rw [show escapeChar '\x09' = ['\\', 't'] from by decide]
            rw [List.cons_append, List.cons_append, List.nil_append]
            rw [parseStringBody.eq_def]
            dsimp only []
            simp +decide [ih]
          · by_cases h5 : c = '\x0a'
            · subst h5
              rw [show escapeChar '\x0a' = ['\\', 'n'] from by decide]
              rw [List.cons_append, List.cons_append, List.nil_append]
              rw [parseStringBody.eq_def]
              dsimp only []
              simp +decide [ih]
            · by_cases h6 : c = '\x0c'
              · subst h6
                rw [show escapeChar '\x0c' = ['\\', 'f'] from by decide]
                rw [List.cons_append, List.cons_append, List.nil_append]
                rw [parseStringBody.eq_def]
                dsimp only []
                simp +decide [ih]
              · by_cases h7 : c = '\x0d'
                · subst h7
                  rw [show escapeChar '\x0d' = ['\\', 'r'] from by decide]
                  rw [List.cons_append, List.cons_append, List.nil_append]
                  rw [parseStringBody.eq_def]
                  dsimp only []
                  simp +decide [ih]
                · by_cases h8 : c.toNat < 32
                  · rw [escapeChar, if_neg h1, if_neg h2, if_neg h3, if_neg h4,
                        if_neg h5, if_neg h6, if_neg h7, if_pos h8]
                    rw [List.cons_append, List.cons_append, List.cons_append,
                        List.cons_append, List.cons_append, List.cons_append,
                        List.nil_append]
                    rw [parseStringBody.eq_def]
                    dsimp only []
                    rw [hexVal_hexDigit _ (by omega), hexVal_hexDigit _ (by omega)]
                    rw [show hexVal '0' = some 0 from by decide]
                    simp +decide [ih]
                    rw [show 16 * (c.toNat / 16) + c.toNat % 16 = c.toNat from by omega,
                        Char.ofNat_toNat]
                  · rw [escapeChar, if_neg h1, if_neg h2, if_neg h3, if_neg h4,
                        if_neg h5, if_neg h6, if_neg h7, if_neg h8]
                    rw [List.cons_append, List.nil_append]
                    rw [parseStringBody.eq_def]
                    dsimp only []
                    rw [if_neg h1, if_neg h2, if_neg h8, ih]
                    rfl

/-- Helper: string-body step at the closing quote. -/
theorem parseStringBody_quote (r : List Char) :
    parseStringBody ('"' :: r) = some ([], r) := by
  rw [parseStringBody.eq_def]
  dsimp only []
  simp

/-- Helper: string-body step at a plain (unescaped) character. -/
theorem parseStringBody_lit (c : Char) (tail : List Char)
    (h1 : ¬ c = '"') (h2 : ¬ c = '\\') (h3 : ¬ c.toNat < 32) :
    parseStringBody (c :: tail) = (parseStringBody tail).map (fun p => (c :: p.1, p.2)) := by
  rw [parseStringBody.eq_def]
  dsimp only []
  rw [if_neg h1, if_neg h2, if_neg h3]

/-- Helper: the value parser inverts the string printer. -/
theorem parseValue_str (f : Nat) (s : String) (rest : List Char) :
    parseValue (f + 1) (printStr s ++ rest) = some (.str s, rest) := by
  rw [printStr, List.cons_append, List.append_assoc, List.cons_append]
  rw [parseValue]
  simp +decide [strResult, parseStringBody_escape]

/-- Helper: a digit character is none of the characters that select
another parser arm. -/
theorem digit_not_letter (c : Char) (h : c.isDigit = true) :
    ¬ c = 'n' ∧ ¬ c = 't' ∧ ¬ c = 'f' ∧ ¬ c = '"' ∧ ¬ c = '[' ∧ ¬ c = '\x7b' := by
  refine ⟨?_, ?_, ?_, ?_, ?_, ?_⟩ <;>
    (intro hc; subst hc; exact absurd h (by decide))

/-- Helper: the value parser inverts the number printer. -/
theorem parseValue_num (f : Nat) (n : Nat) (rest : List Char)
    (h : headIsDigit rest = false) :
    parseValue (f + 1) (natDigits n ++ rest) = some (.num n, rest) := by
  obtain ⟨c, cs, hcc, hd⟩ := natDigits_cons n
  obtain ⟨g1, g2, g3, g4, g5, g6⟩ := digit_not_letter c hd
  rw [hcc, List.cons_append]
  rw [parseValue]
  rw [if_neg g1, if_neg g2, if_neg g3, if_neg g4, if_neg g5, if_neg g6, hd]
  simp only [if_true]
  rw [← List.cons_append, ← hcc, parseNat_digits n rest h]
  rfl

/-- Helper: the string-body parser on the literal key `id`. -/
theorem parseStringBody_key_id (r : List Char) :
    parseStringBody ('i' :: 'd' :: '"' :: r) = some (['i', 'd'], r) := by
  rw [parseStringBody_lit 'i' _ (by decide) (by decide) (by decide),
      parseStringBody_lit 'd' _ (by decide) (by decide) (by decide),
      parseStringBody_quote]
  rfl

/-- Helper: the string-body parser on the literal key `text`. -/
theorem parseStringBody_key_text (r : List Char) :
    parseStringBody ('t' :: 'e' :: 'x' :: 't' :: '"' :: r) = some (['t', 'e', 'x', 't'], r) := by
  rw [parseStringBody_lit 't' _ (by decide) (by decide) (by decide),
      parseStringBody_lit 'e' _ (by decide) (by decide) (by decide),
      parseStringBody_lit 'x' _ (by decide) (by decide) (by decide),
      parseStringBody_lit 't' _ (by decide) (by decide) (by decide),
      parseStringBody_quote]
  rfl

/-- Helper: the string-body parser on the literal key `timestamp`. -/
theorem parseStringBody_key_timestamp (r : List Char) :
    parseStringBody ('t' :: 'i' :: 'm' :: 'e' :: 's' :: 't' :: 'a' :: 'm' :: 'p' :: '"' :: r)
      = some (['t', 'i', 'm', 'e', 's', 't', 'a', 'm', 'p'], r) := by
  rw [parseStringBody_lit 't' _ (by decide) (by decide) (by decide),
      parseStringBody_lit 'i' _ (by decide) (by decide) (by decide),
      parseStringBody_lit 'm' _ (by decide) (by decide) (by decide),
      parseStringBody_lit 'e' _ (by decide) (by decide) (by decide),
      parseStringBody_lit 's' _ (by decide) (by decide) (by decide),
      parseStringBody_lit 't' _ (by decide) (by decide) (by decide),
      parseStringBody_lit 'a' _ (by decide) (by decide) (by decide),
      parseStringBody_lit 'm' _ (by decide) (by decide) (by decide),
      parseStringBody_lit 'p' _ (by decide) (by decide) (by decide),
      parseStringBody_quote]
  rfl

/-- Helper: parsing the re-attached one-field remainder object holding
the `timestamp` field. -/
theorem parseValue_tsObj (f : Nat) (ts : String) (rest : List Char) :
    parseValue (f + 2)
        ('\x7b' :: '"' :: 't' :: 'i' :: 'm' :: 'e' :: 's' :: 't' :: 'a' :: 'm' :: 'p' :: '"'
          :: ':' :: (printStr ts ++ '\x7d' :: rest))
      = some (.obj [("timestamp", .str ts)], rest) := by
  show parseValue ((f + 1) + 1) _ = _
  rw [parseValue]
  rw [if_neg (by decide), if_neg (by decide), if_neg (by decide), if_neg (by decide),
      if_neg (by decide), if_pos rfl]
  rw [objBranch, parseStringBody_key_timestamp, objCont]
  rw [parseValue_str f ts ('\x7d' :: rest)]
  rw [objCont2]

/-- Helper: parsing the re-attached two-field remainder object holding
the `text` and `timestamp` fields. -/
theorem parseValue_textTsObj (f : Nat) (t ts : String) (rest : List Char) :
    parseValue (f + 3)
        ('\x7b' :: '"' :: 't' :: 'e' :: 'x' :: 't' :: '"' :: ':'
          :: (printStr t ++ ',' :: '"' :: 't' :: 'i' :: 'm' :: 'e' :: 's' :: 't' :: 'a'
              :: 'm' :: 'p' :: '"' :: ':' :: (printStr ts ++ '\x7d' :: rest)))
      = some (.obj [("text", .str t), ("timestamp", .str ts)], rest) := by
  show parseValue ((f + 2) + 1) _ = _
  rw [parseValue]
  rw [if_neg (by decide), if_neg (by decide), if_neg (by decide), if_neg (by decide),
      if_neg (by decide), if_pos rfl]
  rw [objBranch, parseStringBody_key_text, objCont]
  rw [show parseValue (f + 2)
        (printStr t ++ ',' :: '"' :: 't' :: 'i' :: 'm' :: 'e' :: 's' :: 't' :: 'a'
          :: 'm' :: 'p' :: '"' :: ':' :: (printStr ts ++ '\x7d' :: rest))
      = some (.str t, ',' :: '"' :: 't' :: 'i' :: 'm' :: 'e' :: 's' :: 't' :: 'a'
          :: 'm' :: 'p' :: '"' :: ':' :: (printStr ts ++ '\x7d' :: rest)) from
    parseValue_str (f + 1) t _]
  rw [objCont2]
  rw [parseValue_tsObj f ts rest]
  rw [objCont3]

/-- Helper: the value parser inverts the printer on one serialized
memory record. -/
theorem parseValue_memory (f : Nat) (m : Memory) (rest : List Char) :
    parseValue (f + 4) (printMemory m ++ rest) = some (memoryToJson m, rest) := by
  show parseValue ((f + 3) + 1) _ = _
  rw [printMemory]
  simp only [List.append_assoc, List.cons_append, List.nil_append]
  rw [parseValue]
  rw [if_neg (by decide), if_neg (by decide), if_neg (by decide), if_neg (by decide),
      if_neg (by decide), if_pos rfl]
  rw [objBranch, parseStringBody_key_id, objCont]
  rw [show parseValue (f + 3)
        (natDigits m.id ++ ',' :: '"' :: 't' :: 'e' :: 'x' :: 't' :: '"' :: ':'
          :: (printStr m.text ++ ',' :: '"' :: 't' :: 'i' :: 'm' :: 'e' :: 's' :: 't'
              :: 'a' :: 'm' :: 'p' :: '"' :: ':' :: (printStr m.timestamp ++ '\x7d' :: rest)))
      = some (.num m.id, ',' :: '"' :: 't' :: 'e' :: 'x' :: 't' :: '"' :: ':'
          :: (printStr m.text ++ ',' :: '"' :: 't' :: 'i' :: 'm' :: 'e' :: 's' :: 't'
              :: 'a' :: 'm' :: 'p' :: '"' :: ':' :: (printStr m.timestamp ++ '\x7d' :: rest))) from
    parseValue_num (f + 2) m.id _ rfl]
  rw [objCont2]
  rw [parseValue_textTsObj f m.text m.timestamp rest]
  rw [objCont3]
  rfl

/-- Helper: a printed record is not a closing bracket, so the array
branch proceeds to its first element. -/
theorem arrBranch_printMemory (m : Memory) (X : List Char)
    (p : List Char → Option (Json × List Char)) :
    arrBranch (printMemory m ++ X) p = arrCont (p (printMemory m ++ X)) p := rfl

/-- Helper: the value parser inverts the printer on a non-empty
serialized memory array (fuel grows with the element count). -/
theorem parseValue_memArr (ms : List Memory) (m : Memory) (f : Nat) (rest : List Char) :
    parseValue (f + ms.length + 5) ('[' :: (printMemoriesBody (m :: ms) ++ ']' :: rest))
      = some (.arr ((m :: ms).map memoryToJson), rest) := by
  induction ms generalizing m f with
  | nil =>
    simp only [List.length_nil, Nat.add_zero]
    show parseValue ((f + 4) + 1) _ = _
    rw [printMemoriesBody]
    rw [parseValue]
    rw [if_neg (by decide), if_neg (by decide), if_neg (by decide), if_neg (by decide),
        if_pos rfl]
    rw [arrBranch_printMemory]
    rw [parseValue_memory f m (']' :: rest)]
    rw [arrCont]
    rfl
  | cons m2 ms' ih =>
    simp only [List.length_cons]
    show parseValue ((f + ms'.length + 1 + 4) + 1) _ = _
    rw [printMemoriesBody]
    simp only [List.append_assoc, List.cons_append]
    rw [parseValue]
    rw [if_neg (by decide), if_neg (by decide), if_neg (by decide), if_neg (by decide),
        if_pos rfl]
    rw [arrBranch_printMemory]
    rw [parseValue_memory (f + ms'.length + 1) m
        (',' :: (printMemoriesBody (m2 :: ms') ++ ']' :: rest))]
    rw [arrCont]
    have ih' : parseValue (f + ms'.length + 1 + 4)
        ('[' :: (printMemoriesBody (m2 :: ms') ++ ']' :: rest))
        = some (.arr ((m2 :: ms').map memoryToJson), rest) := ih m2 f
    rw [ih']
    rw [arrCont2]
    rfl

/-- Helper: a printed record occupies at least two characters. -/
theorem printMemory_length (m : Memory) : 2 ≤ (printMemory m).length := by
  rw [printMemory]
  simp [List.length_append]

/-- Helper: the printed array body is long enough to fund the fuel the
parser needs. -/
theorem printMemoriesBody_length (m : Memory) (ms : List Memory) :
    ms.length + 2 ≤ (printMemoriesBody (m :: ms)).length := by
  induction ms generalizing m with
  | nil =>
    rw [printMemoriesBody]
    simpa using printMemory_length m
  | cons m2 ms' ih =>
    rw [printMemoriesBody]
    have h1 := printMemory_length m
    have h2 := ih m2
    simp only [List.length_append, List.length_cons]
    omega

/-- Round trip, parse side: `JSON.parse` recovers the dynamic value of
the serialized collection from the exact string `JSON.stringify`
writes. -/
theorem parseJson_stringify (ms : List Memory) :
    parseJson (stringifyMemories ms) = some (memoriesToJson ms) := by
  cases ms with
  | nil => rfl
  | cons m ms' =>
    rw [parseJson]
    have hdata : (stringifyMemories (m :: ms')).data
        = '[' :: (printMemoriesBody (m :: ms') ++ ']' :: []) := rfl
    rw [hdata]
    have hlen : ms'.length + 2 ≤ (printMemoriesBody (m :: ms')).length :=
      printMemoriesBody_length m ms'
    obtain ⟨f, hf⟩ : ∃ f,
        ('[' :: (printMemoriesBody (m :: ms') ++ ']' :: [])).length + 1
          = f + ms'.length + 5 := by
      refine ⟨('[' :: (printMemoriesBody (m :: ms') ++ ']' :: [])).length + 1
        - (ms'.length + 5), ?_⟩
      simp only [List.length_cons, List.length_append]
      omega
    rw [hf]
    rw [parseValue_memArr ms' m f []]
    rfl

/-- Round trip, schema side: reading the `id`/`text`/`timestamp` fields
back off the dynamic value recovers every record. -/
theorem decodeMemoriesJson_toJson (ms : List Memory) :
    decodeMemoriesJson (memoriesToJson ms) = some ms := by
  rw [memoriesToJson, decodeMemoriesJson]
  induction ms with
  | nil => rfl
  | cons m ms' ih =>
    rw [List.map_cons, List.mapM_cons]
    rw [show decodeMemoryJson (memoryToJson m) = some m from rfl]
    simp only [Option.bind_eq_bind, Option.some_bind] at *
    rw [ih]
    rfl

/-- Helper: the serialized collection is never the empty string, so the
load path never mistakes it for absence. -/
theorem stringifyMemories_ne_empty (ms : List Memory) : stringifyMemories ms ≠ "" := by
  intro h
  have : (stringifyMemories ms).data = ("" : String).data := by rw [h]
  rw [show (stringifyMemories ms).data = '[' :: (printMemoriesBody ms ++ [']']) from rfl] at this
  simp at this

/-- Round trip through the store: loading what the save effect wrote
yields exactly the serialized collection's dynamic value, with no
error logged. -/
theorem loadDyn_stringify (ms : List Memory) :
    loadDyn (some (stringifyMemories ms)) = (memoriesToJson ms, []) := by
  rw [loadDyn]
  rw [if_neg (stringifyMemories_ne_empty ms), parseJson_stringify]

/-- Claim C4: after every add and after every delete, the save effect
writes the full serialized array, and loading the persisted store back
yields its dynamic value with nothing logged; reading the
`id`/`text`/`timestamp` fields back recovers the in-memory collection
at the moment of the write, record for record. -/
theorem persist_save_load_roundTrip (st : AppState) (now : Nat) (ts : String) (i : Nat) :
    (loadDyn (some (stringifyMemories (handleAddMemory st now ts).1.memories))
        = (memoriesToJson (handleAddMemory st now ts).1.memories, []) ∧
     decodeMemoriesJson (memoriesToJson (handleAddMemory st now ts).1.memories)
        = some (handleAddMemory st now ts).1.memories) ∧
    (loadDyn (some (stringifyMemories (handleDeleteMemory st i).memories))
        = (memoriesToJson (handleDeleteMemory st i).memories, []) ∧
     decodeMemoriesJson (memoriesToJson (handleDeleteMemory st i).memories)
        = some (handleDeleteMemory st i).memories) :=
  ⟨⟨loadDyn_stringify _, decodeMemoriesJson_toJson _⟩,
   ⟨loadDyn_stringify _, decodeMemoriesJson_toJson _⟩⟩

/-- Claim C6 (amended): on the startup load, a missing stored value (or
an empty stored string) silently yields the initial empty collection; a
stored string that fails JSON parsing yields the empty collection with
the failure logged and no alert; but a stored string that parses to any
JSON value whatsoever is installed as `memories` unvalidated. -/
theorem load_absence_or_corruption (s : String) (v : Json) :
    loadDyn none = (Json.arr [], []) ∧
    loadDyn (some "") = (Json.arr [], []) ∧
    (s ≠ "" → parseJson s = none →
      loadDyn (some s)
        = (Json.arr [], [Effect.logError "Failed to load memories from local storage"])) ∧
    (s ≠ "" → parseJson s = some v → loadDyn (some s) = (v, [])) := by
  refine ⟨rfl, rfl, ?_, ?_⟩
  · intro h1 h2
    rw [loadDyn, if_neg h1, h2]
  · intro h1 h2
    rw [loadDyn, if_neg h1, h2]

/-- Witness for C6 (amended) at a syntactically corrupt stored string
and at a parseable non-collection one. -/
theorem load_absence_or_corruption_witness :
    loadDyn (some "not json")
      = (Json.arr [], [Effect.logError "Failed to load memories from local storage"]) ∧
    loadDyn (some "5") = (Json.num 5, []) :=
  ⟨(load_absence_or_corruption "not json" Json.null).2.2.1 (by decide) rfl,
   (load_absence_or_corruption "5" (Json.num 5)).2.2.2 (by decide) rfl⟩

/-- Counterexample for C6 as stated: the stored string `5` is valid
JSON but fails to deserialize as a memory collection, yet the load path
installs the number 5 as `memories` — not the empty collection — and
the render-time filter over that value fails (the browser's
`TypeError`), so the failure is not tolerated as an empty list. -/
theorem load_wrongShape_cex :
    decodeMemoriesJson (Json.num 5) = none ∧
    loadDyn (some "5") = (Json.num 5, []) ∧
    Json.num 5 ≠ memoriesToJson [] ∧
    filteredMemoriesDyn (Json.num 5) "" = none := by
  refine ⟨rfl, rfl, ?_, rfl⟩
  intro h
  exact Json.noConfusion h

/-- Witness for C9 (amended): with no memories and an empty filter the
"no memories yet" message shows. -/
theorem emptyState_messages_witness :
    emptyNotice [] "" = some EmptyNotice.noMemoriesYet :=
  (emptyState_messages [] "").2.2.1 ⟨rfl, rfl⟩
